import Mathlib

/-!
Verification development for the coprocessor cores of the r64 N64 emulator:
the RSP vector unit (src/sp/cop2.rs) and the MIPS64 scalar FPU (src/mips64/cop1.rs).

Modelling conventions.
* A vector register is 16 bytes; the SSE code views it as eight 16-bit lanes in
  little-endian slot order (physical half-word slot `j` occupies bytes `2j, 2j+1`).
  We model the lane view as `Vec8 := Fin 8 → Nat`, each lane a 16-bit value, and
  the whole-register 128-bit little-endian view by `packLanes`/`unpackLanes`.
* Machine integers are `Nat` with explicit `% 2^w`; signed 16-bit lanes are
  decoded with `toI16` (two's complement) and encoded with `ofI16`.
* Rust `<<` on `u128` masks the shift amount by 127 in release builds; `shl128`
  models that.  Rust `!x` on `u128` is `2^128 - 1 - x` (`not128`).
* DMEM is a function `Nat → Nat` of byte values (< 256), 4096 bytes; a Rust
  slice access `dmem[ea..ea+n]` panics when `ea + n > 4096`, modelled by
  `Option` results where reachable.
-/

/-- Two's complement decode of a 16-bit lane value. -/
def toI16 (x : Nat) : Int := if x < 32768 then (x : Int) else (x : Int) - 65536

/-- Two's complement encode of an integer into a 16-bit lane value. -/
def ofI16 (v : Int) : Nat := (v % 65536).toNat

/-- Signed 16-bit saturation, clamping to [-0x8000, 0x7FFF]. -/
def satI16 (v : Int) : Int := max (-32768) (min 32767 v)

/-- `_mm_adds_epi16`, one lane: signed saturating add. -/
def mmAddsEpi16 (a b : Nat) : Nat := ofI16 (satI16 (toI16 a + toI16 b))

/-- `_mm_add_epi16`, one lane: wrapping add mod 2^16. -/
def mmAddEpi16 (a b : Nat) : Nat := (a + b) % 65536

/-- `_mm_min_epi16`, one lane: signed minimum. -/
def mmMinEpi16 (a b : Nat) : Nat := if toI16 a ≤ toI16 b then a else b

/-- `_mm_max_epi16`, one lane: signed maximum. -/
def mmMaxEpi16 (a b : Nat) : Nat := if toI16 a ≤ toI16 b then b else a

/-- `_mm_cmpgt_epi16`, one lane: all-ones when signed greater, else zero. -/
def mmCmpgtEpi16 (a b : Nat) : Nat := if toI16 b < toI16 a then 65535 else 0

/-- `_mm_srli_epi16`, one lane: logical right shift of a 16-bit lane. -/
def mmSrliEpi16 (x k : Nat) : Nat := (x % 65536) >>> k

/-- The eight 16-bit lanes of a 128-bit vector register, in little-endian
slot order (slot 0 = lowest 16 bits of the stored value). -/
def Vec8 := Fin 8 → Nat

/-- The all-zero vector (`_mm_setzero_si128`). -/
def vzero : Vec8 := fun _ => 0

/-- State of the RSP vector coprocessor `SpCop2`: 32 vector registers, the
three accumulator registers, and the VCO carry / not-equal flag vectors. -/
structure VuState where
  vregs : Fin 32 → Vec8
  accum : Fin 3 → Vec8
  vcoCarry : Vec8
  vcoNe : Vec8

/-- VADD (func 0x10): `vd = adds(adds(min(vs,vte), carry), max(vs,vte))`,
`acc_lo = vs + vte + carry` (wrapping), then carry and ne are cleared.
`vs` and `vte` are the (element-selected) operand lane vectors. -/
def vaddOp (s : VuState) (vs vte : Vec8) (rd : Fin 32) : VuState :=
  let carry := s.vcoCarry
  { s with
    vregs := Function.update s.vregs rd
      (fun i => mmAddsEpi16 (mmAddsEpi16 (mmMinEpi16 (vs i) (vte i)) (carry i))
        (mmMaxEpi16 (vs i) (vte i))),
    accum := Function.update s.accum 0
      (fun i => mmAddEpi16 (mmAddEpi16 (vs i) (vte i)) (carry i)),
    vcoCarry := vzero,
    vcoNe := vzero }

/-- VADDC (func 0x14): `res = vs + vte` (wrapping), written to vd and acc_lo;
ne cleared; carry computed as `srli(cmpgt(vs ^ 0x8000, res ^ 0x8000), 15)`. -/
def vaddcOp (s : VuState) (vs vte : Vec8) (rd : Fin 32) : VuState :=
  let res : Vec8 := fun i => mmAddEpi16 (vs i) (vte i)
  { s with
    vregs := Function.update s.vregs rd res,
    accum := Function.update s.accum 0 res,
    vcoNe := vzero,
    vcoCarry := fun i =>
      mmSrliEpi16 (mmCmpgtEpi16 (vs i ^^^ 32768) (res i ^^^ 32768)) 15 }

/-- VSAR (func 0x1D): e in 0..=2 writes zero to vd, e in 8..=10 writes the
accumulator slice `accum[2 - (e - 8)]` to vd, any other e is
`unimplemented!()` (modelled as `none`).  Nothing else is written. -/
def vsarOp (s : VuState) (e : Nat) (rd : Fin 32) : Option VuState :=
  if e ≤ 2 then
    some { s with vregs := Function.update s.vregs rd vzero }
  else if h : 8 ≤ e ∧ e ≤ 10 then
    some { s with vregs := Function.update s.vregs rd (s.accum ⟨2 - (e - 8), by omega⟩) }
  else
    none

/-- `SpCop2::set_vco`: for each i in 0..8, lane slot `7-i` of the carry vector
receives bit `i` of `vco`, and lane slot `7-i` of the ne vector receives bit
`i+8`. -/
def setVco (s : VuState) (x : Nat) : VuState :=
  { s with
    vcoCarry := fun j => (x >>> (7 - j.val)) &&& 1,
    vcoNe := fun j => (x >>> (15 - j.val)) &&& 1 }

/-- `SpCop2::vco`: packs the 16-bit lane slots back into a u16, oring
`carry[7-i] << i` and `ne[7-i] << (i+8)` for i in 0..8 (u16 shifts truncate
mod 2^16). -/
def vcoFn (s : VuState) : Nat :=
  (List.range 8).foldl
    (fun res i =>
      (res ||| ((s.vcoCarry ⟨7 - i, by omega⟩ <<< i) % 65536)) |||
        ((s.vcoNe ⟨7 - i, by omega⟩ <<< (i + 8)) % 65536))
    0

/-- `SpCop2::vcc` always reads as 0. -/
def vccFn (_ : VuState) : Nat := 0

/-- `SpCop2::set_vcc` is a no-op. -/
def setVcc (s : VuState) (_ : Nat) : VuState := s

/-- `SpCop2::vce` always reads as 0. -/
def vceFn (_ : VuState) : Nat := 0

/-- `SpCop2::set_vce` is a no-op. -/
def setVce (s : VuState) (_ : Nat) : VuState := s

/-- CTC2 (bit25=0, e=6): moves the low 16 bits of a CPU register into flag
register `rs` (0 = VCO, 1 = VCC, 2 = VCE); other `rs` values panic. -/
def ctc2 (s : VuState) (rs : Nat) (val : Nat) : Option VuState :=
  match rs with
  | 0 => some (setVco s (val % 65536))
  | 1 => some (setVcc s (val % 65536))
  | 2 => some (setVce s (val % 65536))
  | _ => none

/-- CFC2 (bit25=0, e=2): reads flag register `rs` (0 = VCO, 1 = VCC,
2 = VCE) into a CPU register; other `rs` values panic. -/
def cfc2 (s : VuState) (rs : Nat) : Option Nat :=
  match rs with
  | 0 => some (vcoFn s)
  | 1 => some (vccFn s)
  | 2 => some (vceFn s)
  | _ => none

-- Sample all-zero state, used by witnesses.
def vuZero : VuState :=
  { vregs := fun _ => vzero, accum := fun _ => vzero, vcoCarry := vzero, vcoNe := vzero }

/-! ### Generic bit lemmas -/

theorem toI16_ofI16 (v : Int) (h1 : -32768 ≤ v) (h2 : v ≤ 32767) : toI16 (ofI16 v) = v := by
  unfold toI16 ofI16
  split <;> omega

theorem ofI16_lt (v : Int) : ofI16 v < 65536 := by
  unfold ofI16; omega

theorem satI16_le (v : Int) : -32768 ≤ satI16 v ∧ satI16 v ≤ 32767 := by
  unfold satI16; omega

theorem toI16_mmAddsEpi16 (a b : Nat) :
    toI16 (mmAddsEpi16 a b) = satI16 (toI16 a + toI16 b) := by
  have h := satI16_le (toI16 a + toI16 b)
  exact toI16_ofI16 _ h.1 h.2

theorem toI16_mmMinEpi16 (a b : Nat) :
    toI16 (mmMinEpi16 a b) = min (toI16 a) (toI16 b) := by
  unfold mmMinEpi16
  split <;> omega

theorem toI16_mmMaxEpi16 (a b : Nat) :
    toI16 (mmMaxEpi16 a b) = max (toI16 a) (toI16 b) := by
  unfold mmMaxEpi16
  split <;> omega

theorem xor_two_pow_of_lt {k x : Nat} (h : x < 2 ^ k) : x ^^^ 2 ^ k = x + 2 ^ k := by
  have hor : x + 2 ^ k = 2 ^ k * 1 + x := by ring
  rw [hor, Nat.mul_add_lt_is_or h, Nat.mul_one]
  apply Nat.eq_of_testBit_eq
  intro i
  rcases eq_or_ne k i with rfl | hne
  · simp [Nat.testBit_lt_two_pow h, Nat.testBit_two_pow_self]
  · simp [Nat.testBit_two_pow, hne]

theorem xor_two_pow_of_ge {k x : Nat} (hge : 2 ^ k ≤ x) (hlt : x < 2 ^ (k + 1)) :
    x ^^^ 2 ^ k = x - 2 ^ k := by
  have hr : x - 2 ^ k < 2 ^ k := by
    have : 2 ^ (k + 1) = 2 ^ k * 2 := by rw [Nat.pow_succ]
    omega
  have hx : x = 2 ^ k * 1 + (x - 2 ^ k) := by omega
  have hor : x = 2 ^ k ||| (x - 2 ^ k) := by
    conv_lhs => rw [hx]
    rw [Nat.mul_add_lt_is_or hr, Nat.mul_one]
  conv_lhs => rw [hor]
  apply Nat.eq_of_testBit_eq
  intro i
  rcases eq_or_ne k i with rfl | hne
  · simp [Nat.testBit_lt_two_pow hr, Nat.testBit_two_pow_self]
  · simp [Nat.testBit_two_pow, hne]

theorem xor_32768 (x : Nat) (h : x < 65536) :
    x ^^^ 32768 = if x < 32768 then x + 32768 else x - 32768 := by
  have h15 : (32768 : Nat) = 2 ^ 15 := by norm_num
  have h16 : (65536 : Nat) = 2 ^ (15 + 1) := by norm_num
  split
  · rw [h15]
    exact xor_two_pow_of_lt (by omega)
  · rw [h15]
    exact xor_two_pow_of_ge (by omega) (by omega)

theorem toI16_xor_32768 (x : Nat) (h : x < 65536) :
    toI16 (x ^^^ 32768) = (x : Int) - 32768 := by
  rw [xor_32768 x h]
  unfold toI16
  split <;> split <;> omega

/-! ### C1: VADD -/

-- Concrete vectors for the scenario parts of C1/C2.
def vAll8000 : Vec8 := fun _ => 32768

def vCarry1State : VuState := { vuZero with vcoCarry := fun _ => 1 }

def c2vs : Vec8 := fun i => if i = 0 then 65535 else 0

def c2vt : Vec8 := fun i => if i = 0 then 2 else 0

/-- C1: for every VADD instruction, each destination lane is
`sat_add16(sat_add16(min(vs,vte), carry), max(vs,vte))` with lane-wise signed
min/max and saturation to [-0x8000, 0x7FFF]; each accumulator-LO lane is the
wrapping sum `vs + vte + carry`; VCO carry and ne are cleared; and with
carry = 1, vs = vt = 0x8000 the result lane is 0x8000 and acc-lo is 0x0001. -/
theorem vadd_correct (s : VuState) (vs vte : Vec8) (rd : Fin 32) :
    (∀ i : Fin 8, toI16 ((vaddOp s vs vte rd).vregs rd i) =
      satI16 (satI16 (min (toI16 (vs i)) (toI16 (vte i)) + toI16 (s.vcoCarry i)) +
        max (toI16 (vs i)) (toI16 (vte i)))) ∧
    (∀ i : Fin 8, (vaddOp s vs vte rd).accum 0 i = (vs i + vte i + s.vcoCarry i) % 65536) ∧
    (vaddOp s vs vte rd).vcoCarry = vzero ∧
    (vaddOp s vs vte rd).vcoNe = vzero ∧
    (∀ i : Fin 8, (vaddOp vCarry1State vAll8000 vAll8000 0).vregs 0 i = 32768 ∧
      (vaddOp vCarry1State vAll8000 vAll8000 0).accum 0 i = 1) := by
  refine ⟨fun i => ?_, fun i => ?_, rfl, rfl, by decide⟩
  · simp only [vaddOp, Function.update_same]
    rw [toI16_mmAddsEpi16, toI16_mmAddsEpi16, toI16_mmMinEpi16, toI16_mmMaxEpi16]
  · simp only [vaddOp, Function.update_same, mmAddEpi16]
    omega

/-- C2: for every VADDC instruction, destination and accumulator-LO lanes are
the wrapping sum `(vs + vte) % 2^16`; ne is cleared; the carry lane (computed
by the cmpgt/xor idiom) is 1 exactly when the sum wrapped, i.e. when the
result is unsigned-less-than vs; and in the concrete scenario
vs = [0xFFFF,0,...], vt = [0x0002,0,...] the result lane 0 is 0x0001 with
carry = [1,0,...,0]. -/
theorem vaddc_correct (s : VuState) (vs vte : Vec8) (rd : Fin 32) :
    (∀ i : Fin 8, (vaddcOp s vs vte rd).vregs rd i = (vs i + vte i) % 65536) ∧
    (∀ i : Fin 8, (vaddcOp s vs vte rd).accum 0 i = (vs i + vte i) % 65536) ∧
    (vaddcOp s vs vte rd).vcoNe = vzero ∧
    (∀ i : Fin 8, vs i < 65536 → vte i < 65536 →
      ((vaddcOp s vs vte rd).vcoCarry i = if (vs i + vte i) % 65536 < vs i then 1 else 0) ∧
      ((vaddcOp s vs vte rd).vcoCarry i = 1 ↔ 65536 ≤ vs i + vte i)) ∧
    ((vaddcOp vuZero c2vs c2vt 0).vregs 0 0 = 1 ∧
      (∀ i : Fin 8, (vaddcOp vuZero c2vs c2vt 0).vcoCarry i = if i = 0 then 1 else 0)) := by
  refine ⟨fun i => ?_, fun i => ?_, rfl, fun i hvs hvt => ?_, by decide⟩
  · simp only [vaddcOp, Function.update_same, mmAddEpi16]
  · simp only [vaddcOp, Function.update_same, mmAddEpi16]
  · have hres : (vs i + vte i) % 65536 < 65536 := Nat.mod_lt _ (by norm_num)
    have hcar : (vaddcOp s vs vte rd).vcoCarry i =
        if (vs i + vte i) % 65536 < vs i then 1 else 0 := by
      simp only [vaddcOp, mmSrliEpi16, mmCmpgtEpi16, mmAddEpi16]
      simp only [toI16_xor_32768 _ hvs, toI16_xor_32768 _ hres]
      rcases Nat.lt_or_ge ((vs i + vte i) % 65536) (vs i) with hlt | hge
      · rw [if_pos (by omega), if_pos hlt]
        decide
      · rw [if_neg (by omega), if_neg (by omega)]
        decide
    refine ⟨hcar, ?_⟩
    rw [hcar]
    rcases Nat.lt_or_ge ((vs i + vte i) % 65536) (vs i) with hlt | hge
    · rw [if_pos hlt]
      simp only [true_iff, eq_self_iff_true]
      omega
    · rw [if_neg (by omega)]
      constructor
      · omega
      · intro hw
        exfalso
        omega

/-! ### C6: VSAR -/

theorem vaddc_correct_witness :
    (vaddcOp vuZero c2vs c2vt 0).vcoCarry 0 = 1 ↔ 65536 ≤ c2vs 0 + c2vt 0 :=
  ((vaddc_correct vuZero c2vs c2vt 0).2.2.2.1 0 (by decide) (by decide)).2

/-- C6: for every VSAR instruction, e in {0,1,2} writes zero to vd; e in
{8,9,10} writes the accumulator slice `accum[2-(e-8)]` (8 = HI, 9 = MID,
10 = LO) to vd; the accumulator and the VCO carry/ne vectors are unchanged in
every non-fatal case; any other e is fatal (unimplemented). -/
theorem vsar_correct (s : VuState) (e : Nat) (rd : Fin 32) :
    (e ≤ 2 → vsarOp s e rd = some { s with vregs := Function.update s.vregs rd vzero }) ∧
    (∀ (_h8 : 8 ≤ e), e ≤ 10 →
      vsarOp s e rd =
        some { s with vregs := Function.update s.vregs rd (s.accum ⟨2 - (e - 8), by omega⟩) }) ∧
    (2 < e → (e < 8 ∨ 10 < e) → vsarOp s e rd = none) ∧
    (∀ s2, vsarOp s e rd = some s2 →
      s2.accum = s.accum ∧ s2.vcoCarry = s.vcoCarry ∧ s2.vcoNe = s.vcoNe) := by
  refine ⟨fun h => ?_, fun h8 h10 => ?_, fun h2 h810 => ?_, fun s2 h => ?_⟩
  · rw [vsarOp, if_pos h]
  · rw [vsarOp, if_neg (by omega), dif_pos ⟨h8, h10⟩]
  · rw [vsarOp, if_neg (by omega), dif_neg (by omega)]
  · rw [vsarOp] at h
    split at h
    · exact ⟨(Option.some.inj h) ▸ rfl, (Option.some.inj h) ▸ rfl, (Option.some.inj h) ▸ rfl⟩
    · split at h
      · exact ⟨(Option.some.inj h) ▸ rfl, (Option.some.inj h) ▸ rfl, (Option.some.inj h) ▸ rfl⟩
      · exact absurd h (by simp)

theorem vsar_correct_witness :
    vsarOp vuZero 9 0 =
      some { vuZero with vregs := Function.update vuZero.vregs 0 (vuZero.accum ⟨1, by omega⟩) } ∧
    vsarOp vuZero 5 0 = none ∧
    vsarOp vuZero 2 0 = some { vuZero with vregs := Function.update vuZero.vregs 0 vzero } :=
  ⟨(vsar_correct vuZero 9 0).2.1 (by norm_num) (by norm_num),
   (vsar_correct vuZero 5 0).2.2.1 (by norm_num) (Or.inl (by norm_num)),
   (vsar_correct vuZero 2 0).1 (by norm_num)⟩

/-! ### C9: VCC/VCE do not round-trip through CFC2/CTC2 -/

/-- C9 counterexample: writing 1 to VCC via CTC2 and reading it back via CFC2
yields 0, not 1 — the claimed round-trip fails. -/
theorem vcc_roundtrip_fails :
    ¬ (Option.bind (ctc2 vuZero 1 1) (fun s2 => cfc2 s2 1) = some 1) := by
  decide

/-- C9 amended: CTC2 writes to VCC and VCE are no-ops and CFC2 reads of VCC
and VCE always return 0, so the round-trip only returns the written value when
that value is 0. -/
theorem vcc_vce_read_zero (s : VuState) (x : Nat) :
    ctc2 s 1 x = some s ∧ ctc2 s 2 x = some s ∧
    cfc2 s 1 = some 0 ∧ cfc2 s 2 = some 0 :=
  ⟨rfl, rfl, rfl, rfl⟩

/-! ### Disjoint or is add -/

theorem lor_div_two (a b : Nat) : (a ||| b) / 2 = a / 2 ||| b / 2 := by
  apply Nat.eq_of_testBit_eq
  intro i
  simp [← Nat.testBit_add_one, Nat.testBit_or]

theorem land_div_two (a b : Nat) : (a &&& b) / 2 = a / 2 &&& b / 2 := by
  apply Nat.eq_of_testBit_eq
  intro i
  simp [← Nat.testBit_add_one, Nat.testBit_and]

theorem lor_eq_add_of_land_eq_zero (x : Nat) : ∀ y : Nat, x &&& y = 0 → x ||| y = x + y := by
  induction x using Nat.div2Induction with
  | ind x ih =>
    intro y h
    rcases Nat.eq_zero_or_pos x with rfl | hx
    · simp
    · have hd : x / 2 &&& y / 2 = 0 := by
        rw [← land_div_two, h]
      have ih2 := ih hx (y / 2) hd
      have hm : ¬(x % 2 = 1 ∧ y % 2 = 1) := by
        rintro ⟨hx1, hy1⟩
        have hb : (x &&& y).testBit 0 = true := by
          simp [Nat.testBit_and, Nat.testBit_zero, hx1, hy1]
        rw [h] at hb
        simp at hb
      have key : x ||| y = 2 * (x / 2 ||| y / 2) + (x ||| y) % 2 := by
        rw [← lor_div_two]
        omega
      have hmod : (x ||| y) % 2 = x % 2 + y % 2 := by
        have hiff : ((x ||| y) % 2 = 1) ↔ ((x % 2 = 1) ∨ (y % 2 = 1)) := by
          rw [Nat.mod_two_eq_one_iff_testBit_zero, Nat.mod_two_eq_one_iff_testBit_zero,
            Nat.mod_two_eq_one_iff_testBit_zero, Nat.testBit_or]
          simp
        omega
      rw [ih2] at key
      omega

/-! ### C8: VCO round-trip and 0/1 lane invariant -/

set_option maxHeartbeats 2000000 in
theorem vco_roundtrip (s : VuState) (x : Nat) (h : x < 65536) : vcoFn (setVco s x) = x := by
  have h65 : (65536 : Nat) = 2 ^ 16 := rfl
  have hrange : List.range 8 = [0, 1, 2, 3, 4, 5, 6, 7] := rfl
  unfold vcoFn setVco
  rw [hrange]
  simp only [List.foldl_cons, List.foldl_nil]
  norm_num
  apply Nat.eq_of_testBit_eq
  intro j
  rcases Nat.lt_or_ge j 16 with hj | hj
  · interval_cases j <;>
    · simp only [Nat.testBit_or]
      simp only [Nat.and_one_is_mod, Nat.shiftLeft_eq, Nat.shiftRight_eq_div_pow,
        Nat.testBit_to_div_mod]
      rw [Bool.eq_iff_iff]
      simp only [Bool.or_eq_true, decide_eq_true_eq]
      norm_num
      omega
  · have hj2 : ¬ j < 16 := by omega
    have hxj : x.testBit j = false := by
      apply Nat.testBit_lt_two_pow
      calc x < 2 ^ 16 := h
        _ ≤ 2 ^ j := Nat.pow_le_pow_right (by norm_num) hj
    simp only [h65, Nat.testBit_or, Nat.testBit_mod_two_pow]
    simp [hj2, hxj]

/-- C8: `set_vco(x); vco()` returns x for every 16-bit x; `set_vco` leaves
every carry/ne lane holding 0 or 1; and the VCO-writing VU operations VADD
and VADDC keep every carry/ne lane at 0 or 1. -/
theorem vco_correct (s : VuState) (x : Nat) :
    (x < 65536 → vcoFn (setVco s x) = x) ∧
    (∀ j : Fin 8, (setVco s x).vcoCarry j ≤ 1 ∧ (setVco s x).vcoNe j ≤ 1) ∧
    (∀ (vs vte : Vec8) (rd : Fin 32) (j : Fin 8),
      (vaddOp s vs vte rd).vcoCarry j ≤ 1 ∧ (vaddOp s vs vte rd).vcoNe j ≤ 1) ∧
    (∀ (vs vte : Vec8) (rd : Fin 32) (j : Fin 8),
      (vaddcOp s vs vte rd).vcoCarry j ≤ 1 ∧ (vaddcOp s vs vte rd).vcoNe j ≤ 1) := by
  refine ⟨fun h => vco_roundtrip s x h, fun j => ⟨?_, ?_⟩, fun vs vte rd j => ⟨?_, ?_⟩,
    fun vs vte rd j => ⟨?_, ?_⟩⟩
  · simp only [setVco, Nat.and_one_is_mod]
    omega
  · simp only [setVco, Nat.and_one_is_mod]
    omega
  · simp [vaddOp, vzero]
  · simp [vaddOp, vzero]
  · simp only [vaddcOp, mmSrliEpi16, mmCmpgtEpi16]
    split
    · decide
    · decide
  · simp [vaddcOp, vzero]

theorem vco_correct_witness :
    vcoFn (setVco vuZero 43981) = 43981 ∧
    (setVco vuZero 43981).vcoCarry 3 ≤ 1 :=
  ⟨(vco_correct vuZero 43981).1 (by norm_num), ((vco_correct vuZero 43981).2.1 3).1⟩

/-! ### C7: register round-trip through the Cop interface -/

/-- `LittleEndian::read_u128` of a register seen as eight 16-bit lanes:
lane j contributes its 16 bits at bit offset `16*j`. -/
def packLanes (v : Vec8) : Nat :=
  v 0 % 65536 + v 1 % 65536 * 2 ^ 16 + v 2 % 65536 * 2 ^ 32 + v 3 % 65536 * 2 ^ 48 +
    v 4 % 65536 * 2 ^ 64 + v 5 % 65536 * 2 ^ 80 + v 6 % 65536 * 2 ^ 96 +
    v 7 % 65536 * 2 ^ 112

/-- `LittleEndian::write_u128` of a 128-bit value into a register seen as
eight 16-bit lanes. -/
def unpackLanes (x : Nat) : Vec8 := fun j => (x >>> (16 * j.val)) % 65536

theorem packLanes_unpackLanes (x : Nat) (h : x < 2 ^ 128) :
    packLanes (unpackLanes x) = x := by
  simp only [packLanes, unpackLanes, Nat.shiftRight_eq_div_pow,
    show ((0 : Fin 8) : Nat) = 0 from rfl, show ((1 : Fin 8) : Nat) = 1 from rfl,
    show ((2 : Fin 8) : Nat) = 2 from rfl, show ((3 : Fin 8) : Nat) = 3 from rfl,
    show ((4 : Fin 8) : Nat) = 4 from rfl, show ((5 : Fin 8) : Nat) = 5 from rfl,
    show ((6 : Fin 8) : Nat) = 6 from rfl, show ((7 : Fin 8) : Nat) = 7 from rfl]
  norm_num
  omega

/-- `Cop::reg` for SpCop2: indices 32..=34 are the flag registers, 35..=37 the
accumulator rows, anything below 32 a vector register (an index above 37 would
panic on the Rust array access). -/
def regRead (s : VuState) (idx : Nat) : Option Nat :=
  if idx = 32 then some (vcoFn s)
  else if idx = 33 then some (vccFn s)
  else if idx = 34 then some (vceFn s)
  else if idx = 35 then some (packLanes (s.accum 0))
  else if idx = 36 then some (packLanes (s.accum 1))
  else if idx = 37 then some (packLanes (s.accum 2))
  else if h : idx < 32 then some (packLanes (s.vregs ⟨idx, h⟩))
  else none

/-- `Cop::set_reg` for SpCop2, symmetric to `regRead`. -/
def setReg (s : VuState) (idx val : Nat) : Option VuState :=
  if idx = 32 then some (setVco s (val % 65536))
  else if idx = 33 then some (setVcc s (val % 65536))
  else if idx = 34 then some (setVce s (val % 65536))
  else if idx = 35 then some { s with accum := Function.update s.accum 0 (unpackLanes val) }
  else if idx = 36 then some { s with accum := Function.update s.accum 1 (unpackLanes val) }
  else if idx = 37 then some { s with accum := Function.update s.accum 2 (unpackLanes val) }
  else if h : idx < 32 then
    some { s with vregs := Function.update s.vregs ⟨idx, h⟩ (unpackLanes val) }
  else none

/-- C7: `set_reg(i, v); reg(i)` returns exactly v for every vector register
index i < 32 and every 128-bit v, and likewise for the three accumulator
aliases 35, 36, 37. -/
theorem reg_roundtrip (s : VuState) (v : Nat) (hv : v < 2 ^ 128) :
    (∀ idx : Nat, idx < 32 →
      Option.bind (setReg s idx v) (fun s2 => regRead s2 idx) = some v) ∧
    (∀ idx : Nat, 35 ≤ idx → idx ≤ 37 →
      Option.bind (setReg s idx v) (fun s2 => regRead s2 idx) = some v) := by
  constructor
  · intro idx hidx
    have h32 : idx ≠ 32 := by omega
    have h33 : idx ≠ 33 := by omega
    have h34 : idx ≠ 34 := by omega
    have h35 : idx ≠ 35 := by omega
    have h36 : idx ≠ 36 := by omega
    have h37 : idx ≠ 37 := by omega
    simp only [setReg, regRead, if_neg h32, if_neg h33, if_neg h34, if_neg h35, if_neg h36,
      if_neg h37, dif_pos hidx, Option.bind]
    rw [Function.update_same, packLanes_unpackLanes v hv]
  · intro idx h35 h37
    interval_cases idx <;>
      simp [setReg, regRead, Option.bind, packLanes_unpackLanes v hv]

theorem reg_roundtrip_witness :
    Option.bind (setReg vuZero 7 12345678901234567890) (fun s2 => regRead s2 7) =
      some 12345678901234567890 ∧
    Option.bind (setReg vuZero 36 98765432109876543210) (fun s2 => regRead s2 36) =
      some 98765432109876543210 :=
  ⟨(reg_roundtrip vuZero 12345678901234567890 (by norm_num)).1 7 (by norm_num),
   (reg_roundtrip vuZero 98765432109876543210 (by norm_num)).2 36 (by norm_num) (by norm_num)⟩


/-! ### COP1: scalar FPU conversions (src/mips64/cop1.rs)

The float computations in `bankers_round` and the conversion paths operate on
half-integers, quarter-integers and integer-valued floats, on which IEEE
arithmetic is exact; the register value is modelled as an exact rational and
Rust `f64::round` (round half away from zero) as `roundAway`.  `to_i64`/
`to_i32` are the num-crate checked conversions: `Some` exactly when the value
fits the signed width; `approx!` panics on `None` (modelled as `none`) and
otherwise writes the `as u64` two's-complement encoding of the integer. -/
def roundAway (x : ℚ) : ℤ := if 0 ≤ x then ⌊x + 1 / 2⌋ else ⌈x - 1 / 2⌉

def bankersRound (x : ℚ) : ℚ :=
  let y : ℚ := ((roundAway x : ℤ) : ℚ)
  if |x - y| = 1 / 2 then ((roundAway (x * (1 / 2)) : ℤ) : ℚ) * 2 else y

theorem roundAway_add_half (k : ℤ) :
    roundAway ((k : ℚ) + 1 / 2) = if 0 ≤ k then k + 1 else k := by
  unfold roundAway
  rcases le_or_lt 0 k with hk | hk
  · have hq : (0 : ℚ) ≤ (k : ℚ) := by exact_mod_cast hk
    rw [if_pos (by linarith), if_pos hk]
    have h1 : (k : ℚ) + 1 / 2 + 1 / 2 = ((k + 1 : ℤ) : ℚ) := by push_cast; ring
    rw [h1, Int.floor_intCast]
  · have hk1 : k ≤ -1 := by omega
    have hq : (k : ℚ) ≤ -1 := by exact_mod_cast hk1
    rw [if_neg (by linarith), if_neg (not_le.mpr hk)]
    have h1 : (k : ℚ) + 1 / 2 - 1 / 2 = ((k : ℤ) : ℚ) := by ring
    rw [h1, Int.ceil_intCast]

theorem roundAway_sub_half (k : ℤ) :
    roundAway ((k : ℚ) - 1 / 2) = if 0 < k then k else k - 1 := by
  unfold roundAway
  rcases lt_or_le 0 k with hk | hk
  · have hq : (1 : ℚ) ≤ (k : ℚ) := by exact_mod_cast hk
    rw [if_pos (by linarith), if_pos hk]
    have h1 : (k : ℚ) - 1 / 2 + 1 / 2 = ((k : ℤ) : ℚ) := by ring
    rw [h1, Int.floor_intCast]
  · have hq : (k : ℚ) ≤ 0 := by exact_mod_cast hk
    rw [if_neg (by linarith), if_neg (not_lt.mpr hk)]
    have h1 : (k : ℚ) - 1 / 2 - 1 / 2 = ((k - 1 : ℤ) : ℚ) := by push_cast; ring
    rw [h1, Int.ceil_intCast]

theorem roundAway_add_quarter (m : ℤ) : roundAway ((m : ℚ) + 1 / 4) = m := by
  unfold roundAway
  rcases le_or_lt 0 m with hm | hm
  · have hq : (0 : ℚ) ≤ (m : ℚ) := by exact_mod_cast hm
    rw [if_pos (by linarith)]
    have h1 : (m : ℚ) + 1 / 4 + 1 / 2 = (m : ℚ) + 3 / 4 := by ring
    rw [h1, Int.floor_int_add, show ⌊(3 / 4 : ℚ)⌋ = 0 from Int.floor_eq_iff.mpr (by norm_num)]
    omega
  · have hm1 : m ≤ -1 := by omega
    have hq : (m : ℚ) ≤ -1 := by exact_mod_cast hm1
    rw [if_neg (by linarith)]
    have h1 : (m : ℚ) + 1 / 4 - 1 / 2 = (-1 / 4 : ℚ) + (m : ℚ) := by ring
    rw [h1, Int.ceil_add_int,
      show ⌈(-1 / 4 : ℚ)⌉ = 0 from Int.ceil_eq_iff.mpr (by norm_num)]
    omega

theorem roundAway_add_three_quarters (m : ℤ) : roundAway ((m : ℚ) + 3 / 4) = m + 1 := by
  unfold roundAway
  rcases le_or_lt 0 m with hm | hm
  · have hq : (0 : ℚ) ≤ (m : ℚ) := by exact_mod_cast hm
    rw [if_pos (by linarith)]
    have h1 : (m : ℚ) + 3 / 4 + 1 / 2 = (m : ℚ) + 5 / 4 := by ring
    rw [h1, Int.floor_int_add, show ⌊(5 / 4 : ℚ)⌋ = 1 from Int.floor_eq_iff.mpr (by norm_num)]
  · have hm1 : m ≤ -1 := by omega
    have hq : (m : ℚ) ≤ -1 := by exact_mod_cast hm1
    rw [if_neg (by linarith)]
    have h1 : (m : ℚ) + 3 / 4 - 1 / 2 = (1 / 4 : ℚ) + (m : ℚ) := by ring
    rw [h1, Int.ceil_add_int,
      show ⌈(1 / 4 : ℚ)⌉ = 1 from Int.ceil_eq_iff.mpr (by norm_num)]
    omega

theorem abs_sub_roundAway (x : ℚ) :
    |x - ((roundAway x : ℤ) : ℚ)| ≤ 1 / 2 ∧
      (|x - ((roundAway x : ℤ) : ℚ)| = 1 / 2 → Int.fract x = 1 / 2) := by
  have hposf : Int.fract ((1 : ℚ) / 2) = 1 / 2 :=
    Int.fract_eq_self.mpr ⟨by norm_num, by norm_num⟩
  have hnegf : Int.fract (-(1 : ℚ) / 2) = 1 / 2 := by
    have hfl : ⌊(-(1 : ℚ) / 2)⌋ = -1 := Int.floor_eq_iff.mpr (by norm_num)
    simp [Int.fract, hfl]
    norm_num
  unfold roundAway
  rcases le_or_lt 0 x with hx | hx
  · rw [if_pos hx]
    have h1 : ((⌊x + 1 / 2⌋ : ℤ) : ℚ) ≤ x + 1 / 2 := Int.floor_le _
    have h2 : x + 1 / 2 < (⌊x + 1 / 2⌋ : ℤ) + 1 := Int.lt_floor_add_one _
    constructor
    · rw [abs_le]
      constructor <;> linarith
    · intro he
      rcases (abs_eq (by norm_num : (0 : ℚ) ≤ 1 / 2)).mp he with h3 | h3
      · have hxe : x = ((⌊x + 1 / 2⌋ : ℤ) : ℚ) + 1 / 2 := by linarith
        rw [hxe, Int.fract_int_add, hposf]
      · have hxe : x = ((⌊x + 1 / 2⌋ : ℤ) : ℚ) + (-(1 : ℚ) / 2) := by linarith
        rw [hxe, Int.fract_int_add, hnegf]
  · rw [if_neg (not_le.mpr hx)]
    have h1 : x - 1 / 2 ≤ ((⌈x - 1 / 2⌉ : ℤ) : ℚ) := Int.le_ceil _
    have h2 : ((⌈x - 1 / 2⌉ : ℤ) : ℚ) < (x - 1 / 2) + 1 := Int.ceil_lt_add_one _
    constructor
    · rw [abs_le]
      constructor <;> linarith
    · intro he
      rcases (abs_eq (by norm_num : (0 : ℚ) ≤ 1 / 2)).mp he with h3 | h3
      · have hxe : x = ((⌈x - 1 / 2⌉ : ℤ) : ℚ) + 1 / 2 := by linarith
        rw [hxe, Int.fract_int_add, hposf]
      · have hxe : x = ((⌈x - 1 / 2⌉ : ℤ) : ℚ) + (-(1 : ℚ) / 2) := by linarith
        rw [hxe, Int.fract_int_add, hnegf]


theorem bankersRound_of_half (x : ℚ) (hx : |x - ((roundAway x : ℤ) : ℚ)| = 1 / 2) :
    bankersRound x = ((roundAway (x * (1 / 2)) : ℤ) : ℚ) * 2 := by
  unfold bankersRound
  rw [if_pos hx]

theorem bankersRound_of_not_half (x : ℚ) (hx : ¬ |x - ((roundAway x : ℤ) : ℚ)| = 1 / 2) :
    bankersRound x = ((roundAway x : ℤ) : ℚ) := by
  unfold bankersRound
  rw [if_neg hx]

/-- C3: `bankers_round` rounds halves to the even integer: for every integer
k, `bankers_round(k + 0.5)` is k when k is even and k+1 when k is odd, and
`bankers_round(k - 0.5)` is k when k is even and k-1 when k is odd (both the
nearest even integer); for inputs not exactly halfway between integers it
agrees with round-to-nearest (distance below 1/2). -/
theorem bankers_round_correct :
    (∀ k : ℤ, bankersRound ((k : ℚ) + 1 / 2) = if 2 ∣ k then (k : ℚ) else (k : ℚ) + 1) ∧
    (∀ k : ℤ, bankersRound ((k : ℚ) - 1 / 2) = if 2 ∣ k then (k : ℚ) else (k : ℚ) - 1) ∧
    (∀ x : ℚ, Int.fract x ≠ 1 / 2 →
      bankersRound x = ((roundAway x : ℤ) : ℚ) ∧ |x - bankersRound x| < 1 / 2) := by
  refine ⟨fun k => ?_, fun k => ?_, fun x hf => ?_⟩
  · have hhalf : |((k : ℚ) + 1 / 2) - ((roundAway ((k : ℚ) + 1 / 2) : ℤ) : ℚ)| = 1 / 2 := by
      rw [roundAway_add_half]
      rcases le_or_lt 0 k with hk | hk
      · rw [if_pos hk]
        have h1 : ((k : ℚ) + 1 / 2) - ((k + 1 : ℤ) : ℚ) = -(1 / 2) := by push_cast; ring
        rw [h1]
        norm_num
      · rw [if_neg (not_le.mpr hk)]
        have h1 : ((k : ℚ) + 1 / 2) - ((k : ℤ) : ℚ) = 1 / 2 := by ring
        rw [h1]
        norm_num
    rw [bankersRound_of_half _ hhalf]
    rcases Int.even_or_odd k with ⟨m, rfl⟩ | ⟨m, rfl⟩
    · rw [if_pos ⟨m, by ring⟩]
      have harg : (((m + m : ℤ) : ℚ) + 1 / 2) * (1 / 2) = (m : ℚ) + 1 / 4 := by push_cast; ring
      rw [harg, roundAway_add_quarter]
      push_cast
      ring
    · rw [if_neg (by omega)]
      have harg : (((2 * m + 1 : ℤ) : ℚ) + 1 / 2) * (1 / 2) = (m : ℚ) + 3 / 4 := by
        push_cast; ring
      rw [harg, roundAway_add_three_quarters]
      push_cast
      ring
  · have hhalf : |((k : ℚ) - 1 / 2) - ((roundAway ((k : ℚ) - 1 / 2) : ℤ) : ℚ)| = 1 / 2 := by
      rw [roundAway_sub_half]
      rcases lt_or_le 0 k with hk | hk
      · rw [if_pos hk]
        have h1 : ((k : ℚ) - 1 / 2) - ((k : ℤ) : ℚ) = -(1 / 2) := by ring
        rw [h1]
        norm_num
      · rw [if_neg (not_lt.mpr hk)]
        have h1 : ((k : ℚ) - 1 / 2) - ((k - 1 : ℤ) : ℚ) = 1 / 2 := by push_cast; ring
        rw [h1]
        norm_num
    rw [bankersRound_of_half _ hhalf]
    rcases Int.even_or_odd k with ⟨m, rfl⟩ | ⟨m, rfl⟩
    · rw [if_pos ⟨m, by ring⟩]
      have harg : (((m + m : ℤ) : ℚ) - 1 / 2) * (1 / 2) = ((m - 1 : ℤ) : ℚ) + 3 / 4 := by
        push_cast; ring
      rw [harg, roundAway_add_three_quarters]
      push_cast
      ring
    · rw [if_neg (by omega)]
      have harg : (((2 * m + 1 : ℤ) : ℚ) - 1 / 2) * (1 / 2) = (m : ℚ) + 1 / 4 := by
        push_cast; ring
      rw [harg, roundAway_add_quarter]
      push_cast
      ring
  · have h := abs_sub_roundAway x
    have hne : ¬ |x - ((roundAway x : ℤ) : ℚ)| = 1 / 2 := fun he => hf (h.2 he)
    have heq := bankersRound_of_not_half x hne
    exact ⟨heq, by rw [heq]; exact lt_of_le_of_ne h.1 hne⟩

def truncQ (x : ℚ) : ℚ := if 0 ≤ x then (⌊x⌋ : ℚ) else (⌈x⌉ : ℚ)

def ceilQ (x : ℚ) : ℚ := (⌈x⌉ : ℚ)

def floorQ (x : ℚ) : ℚ := (⌊x⌋ : ℚ)

def toI64q (q : ℚ) : Option ℤ :=
  if -(2 ^ 63 : ℚ) ≤ q ∧ q ≤ 2 ^ 63 - 1 then some ⌊q⌋ else none

def toI32q (q : ℚ) : Option ℤ :=
  if -(2 ^ 31 : ℚ) ≤ q ∧ q ≤ 2 ^ 31 - 1 then some ⌊q⌋ else none

def u64ofInt (v : ℤ) : Nat := (v % 2 ^ 64).toNat

def cop1Conv (func : Nat) (fs : ℚ) (regs : Fin 32 → Nat) (fd : Fin 32) :
    Option (Fin 32 → Nat) :=
  let write : Option ℤ → Option (Fin 32 → Nat) := fun r =>
    r.map (fun v => Function.update regs fd (u64ofInt v))
  match func with
  | 0x08 => write (toI64q (bankersRound fs))
  | 0x09 => write (toI64q (truncQ fs))
  | 0x0A => write (toI64q (ceilQ fs))
  | 0x0B => write (toI64q (floorQ fs))
  | 0x0C => write (toI32q (bankersRound fs))
  | 0x0D => write (toI32q (truncQ fs))
  | 0x0E => write (toI32q (ceilQ fs))
  | 0x0F => write (toI32q (floorQ fs))
  | _ => none

def convRound (func : Nat) (fs : ℚ) : ℚ :=
  if func = 0x08 ∨ func = 0x0C then bankersRound fs
  else if func = 0x09 ∨ func = 0x0D then truncQ fs
  else if func = 0x0A ∨ func = 0x0E then ceilQ fs
  else floorQ fs

/-- C4: for every COP1 conversion (func 0x08..0x0F), when the rounded value
of fs does not fit the target signed width (i64 for 0x08..0x0B, i32 for
0x0C..0x0F) the operation panics (`none`) without writing the destination;
when it fits, the two's-complement encoding of the cast integer is written to
the destination register and the operation completes (`some`). -/
theorem cop1_conv_correct (func : Nat) (h8 : 8 ≤ func) (hF : func ≤ 15) (fs : ℚ)
    (regs : Fin 32 → Nat) (fd : Fin 32) :
    (((if func ≤ 11 then -(2 ^ 63 : ℚ) else -(2 ^ 31)) ≤ convRound func fs ∧
        convRound func fs ≤ (if func ≤ 11 then (2 ^ 63 - 1 : ℚ) else 2 ^ 31 - 1)) →
      cop1Conv func fs regs fd =
        some (Function.update regs fd (u64ofInt ⌊convRound func fs⌋))) ∧
    (¬ ((if func ≤ 11 then -(2 ^ 63 : ℚ) else -(2 ^ 31)) ≤ convRound func fs ∧
        convRound func fs ≤ (if func ≤ 11 then (2 ^ 63 - 1 : ℚ) else 2 ^ 31 - 1)) →
      cop1Conv func fs regs fd = none) := by
  interval_cases func <;>
    refine ⟨fun hin => ?_, fun hout => ?_⟩ <;>
      simp_all [cop1Conv, convRound, toI64q, toI32q, Option.map] <;>
      · rw [if_neg (fun hands => absurd hands.2 (not_le.mpr (hout hands.1)))]

theorem bankers_round_correct_witness :
    bankersRound (7 / 4) = ((roundAway (7 / 4) : ℤ) : ℚ) ∧
      |(7 / 4 : ℚ) - bankersRound (7 / 4)| < 1 / 2 :=
  bankers_round_correct.2.2 (7 / 4) (by
    have h1 : ⌊(7 / 4 : ℚ)⌋ = 1 := Int.floor_eq_iff.mpr (by norm_num)
    simp [Int.fract, h1]
    norm_num)

theorem cop1_conv_correct_witness :
    cop1Conv 12 (3 / 2) (fun _ => 0) 0 =
      some (Function.update (fun _ : Fin 32 => 0) 0 (u64ofInt ⌊convRound 12 (3 / 2)⌋)) := by
  have hra : roundAway (3 / 2 : ℚ) = 2 := by
    rw [roundAway, if_pos (by norm_num : (0 : ℚ) ≤ 3 / 2),
      show (3 / 2 + 1 / 2 : ℚ) = ((2 : ℤ) : ℚ) by norm_num, Int.floor_intCast]
  have hra2 : roundAway ((3 / 2 : ℚ) * (1 / 2)) = 1 := by
    rw [roundAway, if_pos (by norm_num : (0 : ℚ) ≤ 3 / 2 * (1 / 2)),
      show ((3 / 2 : ℚ) * (1 / 2) + 1 / 2 : ℚ) = 5 / 4 by norm_num,
      show ⌊(5 / 4 : ℚ)⌋ = 1 from Int.floor_eq_iff.mpr (by norm_num)]
  have hb : bankersRound (3 / 2 : ℚ) = 2 := by
    unfold bankersRound
    rw [hra, if_pos (by norm_num), hra2]
    norm_num
  exact (cop1_conv_correct 12 (by norm_num) (by norm_num) (3 / 2) (fun _ => 0) 0).1
    (by rw [show convRound 12 (3 / 2) = bankersRound (3 / 2) by rw [convRound]; norm_num, hb]
        norm_num)

/-! ### COP2 vector memory operations (lwc/swc arms) -/

/-- Rust `!x` on `u128`. -/
def not128 (x : Nat) : Nat := (2 ^ 128 - 1) - x

/-- Rust `u128` left shift: the shift amount is masked to 7 bits (release
semantics) and the result truncated to 128 bits. -/
def shl128 (x n : Nat) : Nat := (x <<< (n % 128)) % 2 ^ 128

/-- `write_partial_right::<B>(dst, src, skip_bits, nbits)` acting on the
128-bit value read and written back through byte order B. -/
def wprRight (dst src skipBits nbits : Nat) : Nat :=
  let mask := 2 ^ 128 - 1
  let mask := mask &&& shl128 (2 ^ 128 - 1) nbits
  let mask := if skipBits < 128 then mask >>> skipBits else 0
  let src2 := if skipBits < 128 then src >>> skipBits else 0
  (dst &&& not128 mask) ||| (src2 &&& mask)

/-- `BigEndian::read_u128(&dmem[addr .. addr + 16])`. -/
def beRead128 (dmem : Nat → Nat) (addr : Nat) : Nat :=
  dmem addr * 2 ^ 120 + dmem (addr + 1) * 2 ^ 112 + dmem (addr + 2) * 2 ^ 104 +
  dmem (addr + 3) * 2 ^ 96 + dmem (addr + 4) * 2 ^ 88 + dmem (addr + 5) * 2 ^ 80 +
  dmem (addr + 6) * 2 ^ 72 + dmem (addr + 7) * 2 ^ 64 + dmem (addr + 8) * 2 ^ 56 +
  dmem (addr + 9) * 2 ^ 48 + dmem (addr + 10) * 2 ^ 40 + dmem (addr + 11) * 2 ^ 32 +
  dmem (addr + 12) * 2 ^ 24 + dmem (addr + 13) * 2 ^ 16 + dmem (addr + 14) * 2 ^ 8 +
  dmem (addr + 15)

/-- LQV (load opcode 0x04): reads the 16-byte window containing ea,
left-shifts it by `(ea & 0xF) * 8` bits and blits it into the register at bit
offset `element * 8`. -/
def lqvOp (dmem : Nat → Nat) (s : VuState) (vt : Fin 32) (element base offset : Nat) :
    VuState :=
  let ea := ((base + ((offset <<< 4) % 2 ^ 32)) % 2 ^ 32) &&& 0xFFF
  let qwStart := ea &&& ((2 ^ 64 - 1) - 0xF)
  let eaIdx := ea &&& 0xF
  let mem := shl128 (beRead128 dmem qwStart) (eaIdx * 8)
  { s with
    vregs := Function.update s.vregs vt
      (unpackLanes (wprRight (packLanes (s.vregs vt)) mem (element * 8) 128)) }

/-- LRV (load opcode 0x05): reads the 16-byte window containing ea and blits
it into the register at bit offset `((16 - (ea & 0xF)) + element) * 8`. -/
def lrvOp (dmem : Nat → Nat) (s : VuState) (vt : Fin 32) (element base offset : Nat) :
    VuState :=
  let ea := ((base + ((offset <<< 4) % 2 ^ 32)) % 2 ^ 32) &&& 0xFFF
  let qwStart := ea &&& ((2 ^ 64 - 1) - 0xF)
  let eaIdx := ea &&& 0xF
  let mem := beRead128 dmem qwStart
  let sh := (16 - eaIdx) + element
  { s with
    vregs := Function.update s.vregs vt
      (unpackLanes (wprRight (packLanes (s.vregs vt)) mem (sh * 8) 128)) }

/-- Architectural byte j (0 = most significant) of a vector register: byte
`15 - j` of the little-endian 128-bit register value. -/
def archByte (v : Vec8) (j : Nat) : Nat := packLanes v / 2 ^ (8 * (15 - j)) % 256

/-! generic lemmas -/

theorem allones_shr (k : Nat) : (2 ^ 128 - 1) >>> k = 2 ^ (128 - k) - 1 := by
  apply Nat.eq_of_testBit_eq
  intro i
  simp only [Nat.testBit_shiftRight, Nat.testBit_two_pow_sub_one]
  rw [decide_eq_decide]
  omega

theorem testBit_two_pow_sub_two_pow {n k : Nat} (hkn : k ≤ n) (i : Nat) :
    (2 ^ n - 2 ^ k).testBit i = (decide (k ≤ i) && decide (i < n)) := by
  have hp : 2 ^ (n - k) * 2 ^ k = 2 ^ n := by
    rw [← pow_add]
    congr 1
    omega
  have factor : 2 ^ n - 2 ^ k = (2 ^ (n - k) - 1) <<< k := by
    rw [Nat.shiftLeft_eq, Nat.sub_mul, hp, one_mul]
  rw [factor]
  simp only [Nat.testBit_shiftLeft, Nat.testBit_two_pow_sub_one]
  by_cases hk : k ≤ i
  · simp [hk]
    omega
  · simp [hk]

theorem and_high (x k n : Nat) (hx : x < 2 ^ n) (hk : k ≤ n) :
    x &&& (2 ^ n - 2 ^ k) = 2 ^ k * (x / 2 ^ k) := by
  apply Nat.eq_of_testBit_eq
  intro i
  rw [Nat.testBit_and, testBit_two_pow_sub_two_pow hk, Nat.testBit_mul_pow_two,
    ← Nat.shiftRight_eq_div_pow]
  by_cases hki : k ≤ i
  · simp only [ge_iff_le, hki, decide_True, Bool.true_and, Nat.testBit_shiftRight]
    rw [show k + (i - k) = i from by omega]
    by_cases hi : i < n
    · simp [hi]
    · have hxi : x.testBit i = false := by
        apply Nat.testBit_lt_two_pow
        calc x < 2 ^ n := hx
          _ ≤ 2 ^ i := Nat.pow_le_pow_right (by norm_num) (by omega)
      simp [hi, hxi]
  · simp [hki]

theorem wpr_full (d src : Nat) : wprRight d src 0 128 = src % 2 ^ 128 := by
  unfold wprRight shl128 not128
  norm_num
  rw [show (340282366920938463463374607431768211455 : Nat) = 2 ^ 128 - 1 by norm_num]
  rw [Nat.and_pow_two_sub_one_eq_mod]

theorem shl128_eq (B n : Nat) (hn : n < 128) : shl128 B n = 2 ^ n * (B % 2 ^ (128 - n)) := by
  unfold shl128
  rw [Nat.mod_eq_of_lt hn, Nat.shiftLeft_eq,
    show (2 ^ 128 : Nat) = 2 ^ (128 - n) * 2 ^ n from by rw [← pow_add]; congr 1; omega,
    Nat.mul_mod_mul_right]
  ring

theorem beRead128_lt (dmem : Nat → Nat) (hd : ∀ t, dmem t < 256) (addr : Nat) :
    beRead128 dmem addr < 2 ^ 128 := by
  have b0 := hd addr
  have b1 := hd (addr + 1); have b2 := hd (addr + 2); have b3 := hd (addr + 3)
  have b4 := hd (addr + 4); have b5 := hd (addr + 5); have b6 := hd (addr + 6)
  have b7 := hd (addr + 7); have b8 := hd (addr + 8); have b9 := hd (addr + 9)
  have b10 := hd (addr + 10); have b11 := hd (addr + 11); have b12 := hd (addr + 12)
  have b13 := hd (addr + 13); have b14 := hd (addr + 14); have b15 := hd (addr + 15)
  simp only [beRead128]
  norm_num
  omega

theorem beRead128_byte (dmem : Nat → Nat) (hd : ∀ t, dmem t < 256) (addr : Nat) :
    ∀ j, j < 16 → beRead128 dmem addr / 2 ^ (8 * (15 - j)) % 256 = dmem (addr + j) := by
  have b0 := hd addr
  have b1 := hd (addr + 1); have b2 := hd (addr + 2); have b3 := hd (addr + 3)
  have b4 := hd (addr + 4); have b5 := hd (addr + 5); have b6 := hd (addr + 6)
  have b7 := hd (addr + 7); have b8 := hd (addr + 8); have b9 := hd (addr + 9)
  have b10 := hd (addr + 10); have b11 := hd (addr + 11); have b12 := hd (addr + 12)
  have b13 := hd (addr + 13); have b14 := hd (addr + 14); have b15 := hd (addr + 15)
  intro j hj
  interval_cases j <;>
  · simp only [beRead128]
    norm_num
    omega

set_option maxHeartbeats 3000000 in
theorem window_shift (dmem : Nat → Nat) (hd : ∀ t, dmem t < 256) (q a : Nat)
    (ha1 : 1 ≤ a) (ha15 : a ≤ 15) :
    2 ^ (8 * a) * (beRead128 dmem q % 2 ^ (128 - 8 * a)) +
      beRead128 dmem (q + 16) / 2 ^ (8 * (16 - a)) % 2 ^ (8 * a) =
    beRead128 dmem (q + a) := by
  have b0 := hd q
  have b1 := hd (q + 1); have b2 := hd (q + 2); have b3 := hd (q + 3)
  have b4 := hd (q + 4); have b5 := hd (q + 5); have b6 := hd (q + 6)
  have b7 := hd (q + 7); have b8 := hd (q + 8); have b9 := hd (q + 9)
  have b10 := hd (q + 10); have b11 := hd (q + 11); have b12 := hd (q + 12)
  have b13 := hd (q + 13); have b14 := hd (q + 14); have b15 := hd (q + 15)
  have b16 := hd (q + 16); have b17 := hd (q + 17); have b18 := hd (q + 18)
  have b19 := hd (q + 19); have b20 := hd (q + 20); have b21 := hd (q + 21)
  have b22 := hd (q + 22); have b23 := hd (q + 23); have b24 := hd (q + 24)
  have b25 := hd (q + 25); have b26 := hd (q + 26); have b27 := hd (q + 27)
  have b28 := hd (q + 28); have b29 := hd (q + 29); have b30 := hd (q + 30)
  have b31 := hd (q + 31)
  interval_cases a <;>
  · simp only [beRead128, Nat.add_assoc]
    norm_num
    omega

theorem shl128_lt (x n : Nat) : shl128 x n < 2 ^ 128 :=
  Nat.mod_lt _ (by norm_num)

theorem wpr_right_sub (d src skip : Nat) (hs0 : 0 < skip) (hs : skip < 128)
    (hd128 : d < 2 ^ 128) :
    wprRight d src skip 128 =
      2 ^ (128 - skip) * (d / 2 ^ (128 - skip)) + (src >>> skip) % 2 ^ (128 - skip) := by
  simp only [wprRight, shl128, if_pos hs]
  rw [show (128 % 128 : Nat) = 0 from by norm_num, Nat.shiftLeft_zero,
    Nat.mod_eq_of_lt (by norm_num : (2 ^ 128 - 1 : Nat) < 2 ^ 128), Nat.and_self]
  rw [allones_shr skip]
  rw [show not128 (2 ^ (128 - skip) - 1) = 2 ^ 128 - 2 ^ (128 - skip) from by
    unfold not128
    have hle : (2 : Nat) ^ (128 - skip) ≤ 2 ^ 128 := Nat.pow_le_pow_right (by norm_num) (by omega)
    have hpos : (0 : Nat) < 2 ^ (128 - skip) := Nat.two_pow_pos _
    omega]
  rw [and_high d (128 - skip) 128 hd128 (by omega)]
  rw [Nat.and_pow_two_sub_one_eq_mod]
  rw [← Nat.mul_add_lt_is_or (Nat.mod_lt _ (Nat.two_pow_pos _)) _]

/-- C5: for every DMEM content, register state and misaligned effective
address ea (with the next quadword still inside DMEM), LQV at ea followed by
LRV at ea + 16 into the same register (element 0) leaves the register holding
exactly the 16 contiguous bytes dmem[ea .. ea+16] in architectural
(big-endian lane) order. -/
theorem lqv_lrv_reconstruct (dmem : Nat → Nat) (hd : ∀ t, dmem t < 256) (s : VuState)
    (vt : Fin 32) (ea base1 off1 base2 off2 : Nat)
    (h1 : ((base1 + ((off1 <<< 4) % 2 ^ 32)) % 2 ^ 32) &&& 0xFFF = ea)
    (h2 : ((base2 + ((off2 <<< 4) % 2 ^ 32)) % 2 ^ 32) &&& 0xFFF = ea + 16)
    (hmis : ea % 16 ≠ 0) :
    ∀ j, j < 16 →
      archByte ((lrvOp dmem (lqvOp dmem s vt 0 base1 off1) vt 0 base2 off2).vregs vt) j =
        dmem (ea + j) := by
  intro j hj
  have hea4096 : ea < 4096 := by
    rw [← h1]
    exact lt_of_le_of_lt Nat.and_le_right (by norm_num)
  have hea16 : ea + 16 < 4096 := by
    rw [← h2]
    exact lt_of_le_of_lt Nat.and_le_right (by norm_num)
  set a := ea % 16 with hadef
  have ha1 : 1 ≤ a := by omega
  have ha15 : a ≤ 15 := by omega
  set q := 16 * (ea / 16) with hqdef
  have hqa : q + a = ea := by omega
  have hqw1 : ea &&& ((2 ^ 64 - 1) - 0xF) = q := by
    rw [show ((2 ^ 64 - 1 : Nat) - 0xF) = 2 ^ 64 - 2 ^ 4 from by norm_num]
    rw [and_high ea 4 64 (by calc ea < 4096 := hea4096
          _ ≤ 2 ^ 64 := by norm_num) (by norm_num)]
    rw [show (2 : Nat) ^ 4 = 16 from by norm_num]
  have hqw2 : (ea + 16) &&& ((2 ^ 64 - 1) - 0xF) = q + 16 := by
    rw [show ((2 ^ 64 - 1 : Nat) - 0xF) = 2 ^ 64 - 2 ^ 4 from by norm_num]
    rw [and_high (ea + 16) 4 64 (by calc ea + 16 < 4096 := hea16
          _ ≤ 2 ^ 64 := by norm_num) (by norm_num)]
    rw [show (2 : Nat) ^ 4 = 16 from by norm_num]
    omega
  have heaIdx1 : ea &&& 0xF = a := by
    rw [show (0xF : Nat) = 2 ^ 4 - 1 from by norm_num, Nat.and_pow_two_sub_one_eq_mod,
      show (2 : Nat) ^ 4 = 16 from by norm_num]
  have heaIdx2 : (ea + 16) &&& 0xF = a := by
    rw [show (0xF : Nat) = 2 ^ 4 - 1 from by norm_num, Nat.and_pow_two_sub_one_eq_mod,
      show (2 : Nat) ^ 4 = 16 from by norm_num]
    omega
  have hV1 : packLanes ((lqvOp dmem s vt 0 base1 off1).vregs vt) =
      2 ^ (8 * a) * (beRead128 dmem q % 2 ^ (128 - 8 * a)) := by
    simp only [lqvOp, Function.update_same, h1, heaIdx1, hqw1, Nat.zero_mul]
    rw [wpr_full]
    rw [Nat.mod_eq_of_lt (shl128_lt _ _)]
    rw [packLanes_unpackLanes _ (shl128_lt _ _)]
    rw [shl128_eq _ _ (by omega : a * 8 < 128)]
    rw [show a * 8 = 8 * a from by ring]
  have hV1lt : 2 ^ (8 * a) * (beRead128 dmem q % 2 ^ (128 - 8 * a)) < 2 ^ 128 := by
    have hm : beRead128 dmem q % 2 ^ (128 - 8 * a) < 2 ^ (128 - 8 * a) :=
      Nat.mod_lt _ (Nat.two_pow_pos _)
    have hmul : 2 ^ (8 * a) * (beRead128 dmem q % 2 ^ (128 - 8 * a) + 1) ≤
        2 ^ (8 * a) * 2 ^ (128 - 8 * a) := Nat.mul_le_mul_left _ hm
    have hpow : 2 ^ (8 * a) * 2 ^ (128 - 8 * a) = 2 ^ 128 := by
      rw [← pow_add]
      congr 1
      omega
    rw [Nat.mul_succ] at hmul
    have hpos : (0 : Nat) < 2 ^ (8 * a) := Nat.two_pow_pos _
    omega
  have hV2 : packLanes
      ((lrvOp dmem (lqvOp dmem s vt 0 base1 off1) vt 0 base2 off2).vregs vt) =
      beRead128 dmem (q + a) := by
    simp only [lrvOp, Function.update_same, h2, heaIdx2, hqw2, Nat.add_zero]
    rw [hV1]
    rw [wpr_right_sub _ _ _ (by omega) (by omega) hV1lt]
    rw [show 128 - (16 - a) * 8 = 8 * a from by omega]
    rw [Nat.mul_div_cancel_left _ (Nat.two_pow_pos (8 * a))]
    rw [Nat.shiftRight_eq_div_pow]
    rw [show (16 - a) * 8 = 8 * (16 - a) from by ring]
    rw [window_shift dmem hd q a ha1 ha15]
    rw [packLanes_unpackLanes _ (beRead128_lt dmem hd (q + a))]
  rw [archByte, hV2, beRead128_byte dmem hd (q + a) j hj, hqa]

/-- `T::endian_read_from::<BigEndian>(&dmem[addr .. addr + size])`. -/
def beReadBytes (dmem : Nat → Nat) (addr size : Nat) : Nat :=
  (List.range size).foldl (fun acc t => acc * 256 + dmem (addr + t)) 0

/-- `lxv::<T>` (LBV/LSV/LLV/LDV for sizeLog 0..3): the slice access
`dmem[ea .. ea + SIZE]` panics (`none`) when it runs past the 4 KiB buffer. -/
def lxvOp (sizeLog : Nat) (dmem : Nat → Nat) (s : VuState) (vt : Fin 32)
    (element base offset : Nat) : Option VuState :=
  let size := 2 ^ sizeLog
  let ea := ((base + ((offset <<< sizeLog) % 2 ^ 32)) % 2 ^ 32) &&& 0xFFF
  if ea + size ≤ 4096 then
    let mem := shl128 (beReadBytes dmem ea size) (128 - size * 8)
    some { s with
      vregs := Function.update s.vregs vt
        (unpackLanes (wprRight (packLanes (s.vregs vt)) mem (element * 8) (size * 8))) }
  else none

/-- Rust `u128::rotate_left`. -/
def rot128 (x n : Nat) : Nat :=
  ((x <<< (n % 128)) % 2 ^ 128) ||| (x >>> ((128 - n % 128) % 128))

/-- `sxv::<T>` (SBV/SSV/SLV/SDV for sizeLog 0..3): rotates the register left
by `element * 8` bits, takes the high `SIZE * 8` bits and stores them
big-endian at `dmem[ea .. ea + SIZE]`; the slice access panics (`none`) when
it runs past the 4 KiB buffer. -/
def sxvOp (sizeLog : Nat) (dmem : Nat → Nat) (s : VuState) (vt : Fin 32)
    (element base offset : Nat) : Option (Nat → Nat) :=
  let size := 2 ^ sizeLog
  let ea := ((base + ((offset <<< sizeLog) % 2 ^ 32)) % 2 ^ 32) &&& 0xFFF
  if ea + size ≤ 4096 then
    let reg := (rot128 (packLanes (s.vregs vt)) (element * 8)) >>> (128 - size * 8)
    some (fun x => if ea ≤ x ∧ x < ea + size then
        (reg % 2 ^ 64) >>> (8 * (size - 1 - (x - ea))) &&& 255
      else dmem x)
  else none

/-- C10: every sub-word vector load/store computes
`ea = (base + (offset << SIZE_LOG)) & 0xFFF` and then accesses the SIZE bytes
dmem[ea .. ea+SIZE] without re-wrapping: if ea + SIZE exceeds 0x1000 the
operation panics (`none`); otherwise it completes (`some`), and a store
changes no byte outside [ea, ea + SIZE). -/
theorem lxv_sxv_bounds (sizeLog : Nat) (dmem : Nat → Nat) (s : VuState) (vt : Fin 32)
    (element base offset ea : Nat)
    (hea : ((base + ((offset <<< sizeLog) % 2 ^ 32)) % 2 ^ 32) &&& 0xFFF = ea) :
    (ea + 2 ^ sizeLog ≤ 4096 →
      (∃ s2, lxvOp sizeLog dmem s vt element base offset = some s2) ∧
      (∃ d2, sxvOp sizeLog dmem s vt element base offset = some d2)) ∧
    (4096 < ea + 2 ^ sizeLog →
      lxvOp sizeLog dmem s vt element base offset = none ∧
      sxvOp sizeLog dmem s vt element base offset = none) ∧
    (∀ d2, sxvOp sizeLog dmem s vt element base offset = some d2 →
      ∀ x, x < ea ∨ ea + 2 ^ sizeLog ≤ x → d2 x = dmem x) := by
  refine ⟨fun hin => ⟨⟨_, by simp only [lxvOp, hea]; rw [if_pos hin]⟩,
    ⟨_, by simp only [sxvOp, hea]; rw [if_pos hin]⟩⟩, fun hout => ⟨?_, ?_⟩,
    fun d2 hsome x hx => ?_⟩
  · simp only [lxvOp, hea]
    rw [if_neg (by omega)]
  · simp only [sxvOp, hea]
    rw [if_neg (by omega)]
  · simp only [sxvOp, hea] at hsome
    by_cases hb : ea + 2 ^ sizeLog ≤ 4096
    · rw [if_pos hb] at hsome
      have hd2 := Option.some.inj hsome
      rw [← hd2]
      have hcond : ¬ (ea ≤ x ∧ x < ea + 2 ^ sizeLog) := by omega
      simp [hcond]
    · rw [if_neg hb] at hsome
      exact absurd hsome (by simp)

-- Sample DMEM content for the memory-op witnesses.
def dmemSample : Nat → Nat := fun t => t % 256

theorem lqv_lrv_reconstruct_witness :
    archByte ((lrvOp dmemSample (lqvOp dmemSample vuZero 0 0 3 0) 0 0 19 0).vregs 0) 5 =
      dmemSample 8 :=
  lqv_lrv_reconstruct dmemSample (fun t => Nat.mod_lt t (by norm_num)) vuZero 0 3 3 0 19 0
    (by decide) (by decide) (by decide) 5 (by norm_num)

theorem lxv_sxv_bounds_witness :
    (lxvOp 3 dmemSample vuZero 0 0 0xFFC 0 = none ∧
      sxvOp 3 dmemSample vuZero 0 0 0xFFC 0 = none) ∧
    (∃ s2, lxvOp 3 dmemSample vuZero 0 0 0 0 = some s2) :=
  ⟨(lxv_sxv_bounds 3 dmemSample vuZero 0 0 0xFFC 0 0xFFC (by decide)).2.1 (by norm_num),
   ((lxv_sxv_bounds 3 dmemSample vuZero 0 0 0 0 0 (by decide)).1 (by norm_num)).1⟩
